import Mathlib

/-!
Verification development for the ClientFlow repository ("Client Hub").

The backend of record is `server.js` (the MongoDB variant): Express route
handlers over a single document holding three collections (`clients`,
`projects`, `tasks`) and per-resource id counters.  The handlers are pure
functions of that document, so they are embedded here as Lean functions on
an `AppData` record.  The frontend's optimistic state update
(`deleteClient` in `src/App.tsx`) and the dashboard's derived views
(`Dashboard.tsx`) are likewise embedded as pure functions.

Modelling conventions:
* JavaScript id values are either numbers or strings (`JVal`): ids assigned
  by the server are numbers, while ids arriving from the frontend or URL
  parameters are strings.  JS numbers are modelled as `Int`; none of the
  embedded code performs arithmetic that distinguishes doubles from
  integers (only `Number(...)` coercions, counter increments and date
  subtractions).
* `Number(string)` coercion (`jsToNumber`) is modelled on canonical signed
  decimal integer numerals; all other strings behave as `NaN` (`none`).
  This covers every string the application produces for ids
  (`String(n)` images and URL parameters).
* `new Date(string)` (`jsParseDate`) is modelled on ISO `YYYY-MM-DD`
  strings, the only format the app's `DatePicker` produces, returning the
  UTC-midnight timestamp in milliseconds; any other string is an invalid
  date (`none`, i.e. `NaN`).
* `Array.prototype.sort` is modelled as a stable insertion sort
  (`jsSort`); ECMAScript requires the sort to be stable, and a comparator
  result of `NaN` is treated as `+0` (SortCompare), which `dateCmp`
  reflects.  When the comparator is inconsistent (invalid dates), the
  resulting order is implementation-defined in real engines; the stable
  insertion sort is one conforming choice.
* `localeCompare` is modelled as lexicographic string comparison; only the
  sign of the comparator matters for the sorting claims.
-/

namespace ClientFlow

/-- A JavaScript id value as it occurs in the store: a number or a string. -/
inductive JVal where
  | num (n : Int)
  | str (s : String)
deriving DecidableEq

/-- The decimal digit character for `n < 10`. -/
def digitChar (n : Nat) : Char := Char.ofNat (48 + n)

/-- Fuel-driven digit expansion (structural recursion, so that the kernel
can evaluate it); with fuel above `n` it produces the decimal digits of
`n`, most significant first. -/
def natDigsAux : Nat → Nat → List Char
  | 0, _ => []
  | fuel + 1, n =>
    if n < 10 then [digitChar n]
    else natDigsAux fuel (n / 10) ++ [digitChar (n % 10)]

/-- Decimal digits of a natural number, most significant first. -/
def natDigs (n : Nat) : List Char := natDigsAux (n + 1) n

/-- Decimal string of a natural number. -/
def natStr (n : Nat) : String := String.mk (natDigs n)

/-- The JavaScript `String(n)` image of an integer. -/
def intStr (n : Int) : String :=
  if n < 0 then "-" ++ natStr (-n).toNat else natStr n.toNat

/-- Numeric value of a decimal digit character, `none` for non-digits. -/
def digVal (c : Char) : Option Nat :=
  if 48 ≤ c.toNat ∧ c.toNat ≤ 57 then some (c.toNat - 48) else none

/-- Left-to-right accumulation of decimal digits; `none` on a non-digit. -/
def parseDigsFrom (acc : Nat) : List Char → Option Nat
  | [] => some acc
  | c :: cs =>
    match digVal c with
    | some d => parseDigsFrom (10 * acc + d) cs
    | none => none

/-- The JavaScript `Number(string)` coercion, on canonical integer
numerals; `none` stands for `NaN`.  `Number("")` is `0`. -/
def jsToNumber (s : String) : Option Int :=
  match s.data with
  | [] => some 0
  | c :: cs =>
    if c = '-' then
      if cs = [] then none
      else (parseDigsFrom 0 cs).map (fun v => -(v : Int))
    else
      (parseDigsFrom 0 (c :: cs)).map (fun v => (v : Int))

/-- The JavaScript `String(v)` image of an id value. -/
def jsValToString : JVal → String
  | .num n => intStr n
  | .str s => s

/-- JavaScript strict equality `===` between two id values. -/
def jsStrictEq : JVal → JVal → Bool
  | .num a, .num b => a == b
  | .str a, .str b => a == b
  | _, _ => false

/-- Strict equality `v === id` against `Number(param)`; `none` is `NaN`,
which is strictly equal to nothing. -/
def strictEqNum : JVal → Option Int → Bool
  | .num a, some b => a == b
  | _, _ => false

/-- Loose equality `v == id` against `Number(param)`: a string operand is
coerced with `Number(...)`; `NaN` compares false. -/
def looseEqNum : JVal → Option Int → Bool
  | _, none => false
  | .num a, some b => a == b
  | .str s, some b => jsToNumber s == some b

/-- Membership of an id value in a list of strings, as
`Array.prototype.includes` (SameValueZero): only a string element can
match. -/
def memberStr (ss : List String) : JVal → Bool
  | .str s => ss.contains s
  | .num _ => false

/-- Membership of an id value in a list of id values, as
`Array.prototype.includes` (SameValueZero). -/
def containsJV (vs : List JVal) (v : JVal) : Bool :=
  vs.any (fun w => jsStrictEq w v)

/-- The JavaScript `Number(x) || 0` coercion used for budgets and
progress: an absent field or a non-numeric string (`NaN`) becomes `0`. -/
def jsNumOr0 (v : Option JVal) : Int :=
  (v.bind (fun w => match w with
    | .num n => some n
    | .str s => jsToNumber s)).getD 0

/-- Gregorian leap-year test. -/
def isLeap (y : Nat) : Bool := (y % 4 == 0 && y % 100 != 0) || (y % 400 == 0)

/-- Number of days in a month of a given year. -/
def daysInMonth (y m : Nat) : Nat :=
  if m == 2 then (if isLeap y then 29 else 28)
  else if m == 4 || m == 6 || m == 9 || m == 11 then 30 else 31

/-- Days since the Unix epoch of a civil date (valid for years from 1 CE;
the standard days-from-civil computation). -/
def daysFromCivil (y m d : Nat) : Int :=
  let y' : Nat := if m ≤ 2 then y - 1 else y
  let era : Nat := y' / 400
  let yoe : Nat := y' % 400
  let mp : Nat := (m + 9) % 12
  let doy : Nat := (153 * mp + 2) / 5 + d - 1
  let doe : Nat := yoe * 365 + yoe / 4 - yoe / 100 + doy
  (((era * 146097 + doe : Nat)) : Int) - 719468

/-- Milliseconds in one day. -/
def msPerDay : Int := 86400000

/-- The JavaScript `new Date(string).getTime()` on the app's ISO
`YYYY-MM-DD` date strings: the UTC-midnight timestamp in milliseconds.
Any other string yields an invalid date (`none`, i.e. `NaN`). -/
def jsParseDate (s : String) : Option Int :=
  match s.data with
  | [y1, y2, y3, y4, '-', m1, m2, '-', d1, d2] =>
    match digVal y1, digVal y2, digVal y3, digVal y4,
          digVal m1, digVal m2, digVal d1, digVal d2 with
    | some a, some b, some c, some e, some f, some g, some h, some i =>
      let y := 1000 * a + 100 * b + 10 * c + e
      let m := 10 * f + g
      let d := 10 * h + i
      if 1 ≤ y ∧ 1 ≤ m ∧ m ≤ 12 ∧ 1 ≤ d ∧ d ≤ daysInMonth y m then
        some (daysFromCivil y m d * msPerDay)
      else none
    | _, _, _, _, _, _, _, _ => none
  | _ => none

/-- Comparator value of `new Date(a) - new Date(b)`: a `NaN` result is
treated as `+0` by `Array.prototype.sort` (ES SortCompare). -/
def dateCmp : Option Int → Option Int → Int
  | some x, some y => x - y
  | _, _ => 0

/-- Comparator value of `a.localeCompare(b)`, modelled as lexicographic
string comparison (only the sign is ever used). -/
def localeCmp (a b : String) : Int :=
  if a < b then -1 else if b < a then 1 else 0

/-- Stable insertion of `x` into `l`: `x` lands before the first element
`y` with `cmp y x > 0`, matching the order produced by a stable
ECMAScript `Array.prototype.sort`. -/
def jsInsert (cmp : α → α → Int) (x : α) : List α → List α
  | [] => [x]
  | y :: ys => if 0 < cmp y x then x :: y :: ys else y :: jsInsert cmp x ys

/-- Stable sort with a JavaScript comparator (model of
`Array.prototype.sort`). -/
def jsSort (cmp : α → α → Int) (l : List α) : List α :=
  l.foldl (fun acc x => jsInsert cmp x acc) []

/-- A stored client (shape of `types.ts` `Client`; the id may be a number
or a string, since the server assigns numbers while bodies can carry
strings). -/
structure Client where
  id : JVal
  name : String
  email : String
  company : String
  logo : Option String
  phone : Option String
deriving DecidableEq

/-- A stored project (shape of `types.ts` `Project`). -/
structure Project where
  id : JVal
  name : String
  clientId : JVal
  startDate : String
  deadline : String
  budget : Int
  description : String
  status : String
  progress : Int
deriving DecidableEq

/-- A stored task (shape of `types.ts` `Task`). -/
structure Task where
  id : JVal
  name : String
  projectId : JVal
  status : String
  dueDate : String
  description : String
deriving DecidableEq

/-- The single backing document of `server.js`: three collections plus the
per-resource id counters (`nextId`). -/
structure AppData where
  clients : List Client
  projects : List Project
  tasks : List Task
  nextClient : Int
  nextProject : Int
  nextTask : Int
deriving DecidableEq

/-- Body of `POST /api/clients`, as the frontend sends it (all declared
fields present); `id` is optional and, when present, is spread over the
server-assigned id. -/
structure ClientPostBody where
  id : Option JVal
  name : String
  email : String
  company : String
  logo : Option String
  phone : Option String
deriving DecidableEq

/-- Body of `PUT /api/clients/:id`: a partial record, merged field by
field over the stored client. -/
structure ClientPutBody where
  id : Option JVal
  name : Option String
  email : Option String
  company : Option String
  logo : Option String
  phone : Option String
deriving DecidableEq

/-- Body of `POST /api/projects`; `budget` and `progress` are raw JS
values later coerced with `Number(...) || 0`. -/
structure ProjectPostBody where
  id : Option JVal
  name : String
  clientId : JVal
  startDate : String
  deadline : String
  budget : Option JVal
  progress : Option JVal
  description : String
  status : String
deriving DecidableEq

/-- Body of `PUT /api/projects/:id`: a partial record. -/
structure ProjectPutBody where
  id : Option JVal
  name : Option String
  clientId : Option JVal
  startDate : Option String
  deadline : Option String
  budget : Option JVal
  progress : Option JVal
  description : Option String
  status : Option String
deriving DecidableEq

/-- Body of `POST /api/tasks`. -/
structure TaskPostBody where
  id : Option JVal
  name : String
  projectId : JVal
  status : String
  dueDate : String
  description : String
deriving DecidableEq

/-- Body of `PUT /api/tasks/:id`: a partial record. -/
structure TaskPutBody where
  id : Option JVal
  name : Option String
  projectId : Option JVal
  status : Option String
  dueDate : Option String
  description : Option String
deriving DecidableEq

/-- The merge `{ ...stored, ...bodyWithoutId }` of
`app.put('/api/clients/:id')`: the body's `id` is destructured away, every
other present body field overrides the stored one. -/
def mergeClient (c : Client) (b : ClientPutBody) : Client :=
  { id := c.id
    name := b.name.getD c.name
    email := b.email.getD c.email
    company := b.company.getD c.company
    logo := b.logo.orElse (fun _ => c.logo)
    phone := b.phone.orElse (fun _ => c.phone) }

/-- The merge of `app.put('/api/projects/:id')`: body fields override the
stored ones, then `budget` and `progress` are recomputed as
`Number(bodyField) || 0` (note: from the body, not from the merge). -/
def mergeProject (p : Project) (b : ProjectPutBody) : Project :=
  { id := p.id
    name := b.name.getD p.name
    clientId := b.clientId.getD p.clientId
    startDate := b.startDate.getD p.startDate
    deadline := b.deadline.getD p.deadline
    budget := jsNumOr0 b.budget
    description := b.description.getD p.description
    status := b.status.getD p.status
    progress := jsNumOr0 b.progress }

/-- The merge of `app.put('/api/tasks/:id')`. -/
def mergeTask (t : Task) (b : TaskPutBody) : Task :=
  { id := t.id
    name := b.name.getD t.name
    projectId := b.projectId.getD t.projectId
    status := b.status.getD t.status
    dueDate := b.dueDate.getD t.dueDate
    description := b.description.getD t.description }

/-- Result of a DELETE handler: HTTP status, the 404 error body when
present, and the store after the request. -/
structure DelResult where
  status : Nat
  errorMsg : Option String
  state : AppData
deriving DecidableEq

/-- Result of a PUT handler: HTTP status, the 404 error body when present,
the merged entity echoed on success, and the store after the request. -/
structure PutResult (ε : Type) where
  status : Nat
  errorMsg : Option String
  entity : Option ε
  state : AppData
deriving DecidableEq

/-- The `send404` helper: `${type} with ID ${id} not found.` where `id` is
the `Number(...)`-converted route parameter. -/
def send404msg (ty : String) (idN : Option Int) : String :=
  ty ++ " with ID " ++ (match idN with | some n => intStr n | none => "NaN")
     ++ " not found."

/-- The JavaScript `findIndex`-then-assign pattern: update the first
element satisfying `pred` with `f`, returning the new element and list, or
`none` when `findIndex` yields `-1`. -/
def updFirst (pred : α → Bool) (f : α → α) : List α → Option (α × List α)
  | [] => none
  | x :: xs =>
    if pred x then some (f x, f x :: xs)
    else
      match updFirst pred f xs with
      | some (a, ys) => some (a, x :: ys)
      | none => none

/-- Handler `GET /api/clients`: a copy of the clients array sorted by
`name.localeCompare`. -/
def getClients (st : AppData) : List Client :=
  jsSort (fun a b => localeCmp a.name b.name) st.clients

/-- Handler `GET /api/projects`: a copy of the projects array sorted by
`new Date(a.deadline) - new Date(b.deadline)`. -/
def getProjects (st : AppData) : List Project :=
  jsSort (fun a b => dateCmp (jsParseDate a.deadline) (jsParseDate b.deadline))
    st.projects

/-- Handler `GET /api/tasks`: a copy of the tasks array sorted by
`new Date(a.dueDate) - new Date(b.dueDate)`. -/
def getTasks (st : AppData) : List Task :=
  jsSort (fun a b => dateCmp (jsParseDate a.dueDate) (jsParseDate b.dueDate))
    st.tasks

/-- Handler `POST /api/clients`: `{ id: nextId.client++, ...req.body }` —
the counter is always incremented, but a body-supplied `id` is spread
after the generated one and therefore overrides it. -/
def postClientCore (st : AppData) (b : ClientPostBody) : Client × AppData :=
  let newClient : Client :=
    { id := b.id.getD (JVal.num st.nextClient)
      name := b.name
      email := b.email
      company := b.company
      logo := b.logo
      phone := b.phone }
  (newClient,
   { st with clients := st.clients ++ [newClient]
             nextClient := st.nextClient + 1 })

/-- Handler `POST /api/projects`: as for clients, plus
`budget: Number(req.body.budget) || 0` and the same for `progress`, both
written after the spread. -/
def postProjectCore (st : AppData) (b : ProjectPostBody) : Project × AppData :=
  let newProject : Project :=
    { id := b.id.getD (JVal.num st.nextProject)
      name := b.name
      clientId := b.clientId
      startDate := b.startDate
      deadline := b.deadline
      budget := jsNumOr0 b.budget
      description := b.description
      status := b.status
      progress := jsNumOr0 b.progress }
  (newProject,
   { st with projects := st.projects ++ [newProject]
             nextProject := st.nextProject + 1 })

/-- Handler `POST /api/tasks`: `{ id: nextId.task++, ...req.body }`. -/
def postTaskCore (st : AppData) (b : TaskPostBody) : Task × AppData :=
  let newTask : Task :=
    { id := b.id.getD (JVal.num st.nextTask)
      name := b.name
      projectId := b.projectId
      status := b.status
      dueDate := b.dueDate
      description := b.description }
  (newTask,
   { st with tasks := st.tasks ++ [newTask]
             nextTask := st.nextTask + 1 })

/-- Handler `PUT /api/clients/:id` with `idN = Number(req.params.id)`:
merge into the first client with `c.id === id`, else 404. -/
def putClientCore (st : AppData) (idN : Option Int) (b : ClientPutBody) :
    PutResult Client :=
  match updFirst (fun c => strictEqNum c.id idN) (fun c => mergeClient c b)
      st.clients with
  | some (c', clients') =>
    ⟨200, none, some c', { st with clients := clients' }⟩
  | none => ⟨404, some (send404msg "Client" idN), none, st⟩

/-- Handler `PUT /api/projects/:id`. -/
def putProjectCore (st : AppData) (idN : Option Int) (b : ProjectPutBody) :
    PutResult Project :=
  match updFirst (fun p => strictEqNum p.id idN) (fun p => mergeProject p b)
      st.projects with
  | some (p', projects') =>
    ⟨200, none, some p', { st with projects := projects' }⟩
  | none => ⟨404, some (send404msg "Project" idN), none, st⟩

/-- Handler `PUT /api/tasks/:id`. -/
def putTaskCore (st : AppData) (idN : Option Int) (b : TaskPutBody) :
    PutResult Task :=
  match updFirst (fun t => strictEqNum t.id idN) (fun t => mergeTask t b)
      st.tasks with
  | some (t', tasks') =>
    ⟨200, none, some t', { st with tasks := tasks' }⟩
  | none => ⟨404, some (send404msg "Task" idN), none, st⟩

/-- Handler `DELETE /api/clients/:id` with `idN = Number(req.params.id)`:
404 unless some client has `c.id === id`; otherwise the removed projects
are those with `p.clientId == id` (loose equality), their ids are
collected as `String(p.id)`, and a task is removed when that string array
`includes` its `projectId` (strict SameValueZero comparison). -/
def deleteClientCore (st : AppData) (idN : Option Int) : DelResult :=
  if st.clients.any (fun c => strictEqNum c.id idN) then
    let projectIdsToDelete : List String :=
      (st.projects.filter (fun p => looseEqNum p.clientId idN)).map
        (fun p => jsValToString p.id)
    ⟨204, none,
     { st with
       tasks := st.tasks.filter
         (fun t => !(memberStr projectIdsToDelete t.projectId))
       projects := st.projects.filter (fun p => !(looseEqNum p.clientId idN))
       clients := st.clients.filter (fun c => !(strictEqNum c.id idN)) }⟩
  else ⟨404, some (send404msg "Client" idN), st⟩

/-- Handler `DELETE /api/projects/:id`: 404 unless some project has
`p.id === id`; tasks with `t.projectId == id` (loose) and projects with
`p.id === id` are removed. -/
def deleteProjectCore (st : AppData) (idN : Option Int) : DelResult :=
  if st.projects.any (fun p => strictEqNum p.id idN) then
    ⟨204, none,
     { st with
       tasks := st.tasks.filter (fun t => !(looseEqNum t.projectId idN))
       projects := st.projects.filter (fun p => !(strictEqNum p.id idN)) }⟩
  else ⟨404, some (send404msg "Project" idN), st⟩

/-- Handler `DELETE /api/tasks/:id`. -/
def deleteTaskCore (st : AppData) (idN : Option Int) : DelResult :=
  if st.tasks.any (fun t => strictEqNum t.id idN) then
    ⟨204, none,
     { st with tasks := st.tasks.filter (fun t => !(strictEqNum t.id idN)) }⟩
  else ⟨404, some (send404msg "Task" idN), st⟩

/-- An entry of the dashboard's upcoming-deadlines list: a project or a
task, whose `date` is the deadline or due date respectively. -/
inductive DItem where
  | proj (p : Project)
  | task (t : Task)
deriving DecidableEq

/-- The `date` field of a dashboard entry. -/
def ditemDate : DItem → String
  | .proj p => p.deadline
  | .task t => t.dueDate

/-- The dashboard filter `s && new Date(s) >= today && new Date(s) <=
nextTwoWeeks`, with `now` the current timestamp and `nextTwoWeeks` 14 days
later; an empty string is falsy and an invalid date compares false. -/
def inWindow (now : Int) (s : String) : Bool :=
  s != "" &&
    (match jsParseDate s with
     | some d => decide (now ≤ d) && decide (d ≤ now + 14 * msPerDay)
     | none => false)

/-- The dashboard's `upcomingDeadlines` view (`Dashboard.tsx`): projects
and tasks with a date in the next 14 days, merged, sorted by date, and
truncated to the first 5 entries. -/
def upcomingDeadlines (now : Int) (ps : List Project) (ts : List Task) :
    List DItem :=
  let ups := (ps.filter (fun p => inWindow now p.deadline)).map DItem.proj
  let upt := (ts.filter (fun t => inWindow now t.dueDate)).map DItem.task
  (jsSort (fun a b => dateCmp (jsParseDate (ditemDate a))
                              (jsParseDate (ditemDate b)))
    (ups ++ upt)).take 5

/-- The frontend's collections (`App.tsx` state). -/
structure FeState where
  clients : List Client
  projects : List Project
  tasks : List Task
deriving DecidableEq

/-- The frontend's optimistic update after a successful client delete
(`deleteClient` in `src/App.tsx`): strict-equality filters, with the ids
of the client's projects collected without any string conversion. -/
def feDeleteClient (clientId : JVal) (s : FeState) : FeState :=
  let clientProjectIds : List JVal :=
    (s.projects.filter (fun p => jsStrictEq p.clientId clientId)).map
      (fun p => p.id)
  { clients := s.clients.filter (fun c => !(jsStrictEq c.id clientId))
    projects := s.projects.filter (fun p => !(jsStrictEq p.clientId clientId))
    tasks := s.tasks.filter
      (fun t => !(containsJV clientProjectIds t.projectId)) }

/-- Packaging the frontend's collections as a server store (the counters
play no role in DELETE). -/
def ofFe (s : FeState) : AppData :=
  ⟨s.clients, s.projects, s.tasks, 0, 0, 0⟩

/-- The id the server receives for a frontend delete: the route is
built by string interpolation, then converted with `Number(...)`. -/
def serverIdOf (clientId : JVal) : Option Int :=
  jsToNumber (jsValToString clientId)

theorem digVal_digitChar {d : Nat} (h : d < 10) :
    digVal (digitChar d) = some d := by
  interval_cases d <;> decide

theorem parseDigsFrom_append (xs ys : List Char) (acc : Nat) :
    parseDigsFrom acc (xs ++ ys) =
      match parseDigsFrom acc xs with
      | some v => parseDigsFrom v ys
      | none => none := by
  induction xs generalizing acc with
  | nil => simp [parseDigsFrom]
  | cons c cs ih =>
    simp only [List.cons_append, parseDigsFrom]
    cases hdv : digVal c with
    | none => simp
    | some d => simpa using ih _

theorem parseDigsFrom_natDigsAux :
    ∀ (fuel n : Nat), n < fuel → ∀ acc,
      parseDigsFrom acc (natDigsAux fuel n) =
        some (acc * 10 ^ (natDigsAux fuel n).length + n) := by
  intro fuel
  induction fuel with
  | zero => intro n h; omega
  | succ fuel ih =>
    intro n hn acc
    rw [natDigsAux]
    split
    · rename_i h
      simp [parseDigsFrom, digVal_digitChar h]
      omega
    · rename_i h
      have hlt : n / 10 < fuel := by
        have := Nat.div_lt_self (show 0 < n by omega) (show 1 < 10 by omega)
        omega
      rw [parseDigsFrom_append, ih _ hlt acc]
      have h10 : n % 10 < 10 := Nat.mod_lt _ (by omega)
      simp [parseDigsFrom, digVal_digitChar h10, List.length_append,
        pow_succ]
      ring_nf
      omega

theorem parseDigsFrom_natDigs (n : Nat) :
    ∀ acc, parseDigsFrom acc (natDigs n) =
      some (acc * 10 ^ (natDigs n).length + n) :=
  parseDigsFrom_natDigsAux (n + 1) n (by omega)

theorem natDigsAux_all_digits :
    ∀ (fuel n : Nat), ∀ c ∈ natDigsAux fuel n, (digVal c).isSome := by
  intro fuel
  induction fuel with
  | zero => intro n c hc; simp [natDigsAux] at hc
  | succ fuel ih =>
    intro n c hc
    rw [natDigsAux] at hc
    split at hc
    · rename_i h
      simp at hc
      subst hc
      simp [digVal_digitChar h]
    · rename_i h
      simp at hc
      rcases hc with hc | hc
      · exact ih _ c hc
      · subst hc
        simp [digVal_digitChar (Nat.mod_lt n (show 0 < 10 by omega))]

theorem natDigs_all_digits (n : Nat) :
    ∀ c ∈ natDigs n, (digVal c).isSome :=
  natDigsAux_all_digits (n + 1) n

theorem natDigs_ne_nil (n : Nat) : natDigs n ≠ [] := by
  rw [natDigs, natDigsAux]
  split <;> simp

theorem jsToNumber_natStr (n : Nat) : jsToNumber (natStr n) = some ((n : Int)) := by
  cases hd : natDigs n with
  | nil => exact absurd hd (natDigs_ne_nil n)
  | cons c cs =>
    have hdig : (digVal c).isSome := by
      apply natDigs_all_digits n
      rw [hd]; simp
    have hne : c ≠ '-' := by
      intro h
      rw [h] at hdig
      simp [digVal] at hdig
    have hdata : (natStr n).data = c :: cs := by
      simp [natStr, hd]
    rw [jsToNumber, hdata]
    simp only [if_neg hne]
    have := parseDigsFrom_natDigs n 0
    rw [hd] at this
    rw [this]
    simp

theorem jsToNumber_intStr (n : Int) : jsToNumber (intStr n) = some n := by
  by_cases hn : n < 0
  · have hdata : (intStr n).data = '-' :: natDigs (-n).toNat := by
      rw [intStr, if_pos hn]
      simp [natStr]
    rw [jsToNumber, hdata]
    simp [natDigs_ne_nil (-n).toNat, parseDigsFrom_natDigs (-n).toNat 0]
    rw [sup_eq_left.mpr (by omega : (0 : Int) ≤ -n)]
    omega
  · rw [intStr, if_neg hn, jsToNumber_natStr]
    congr 1
    omega

theorem intStr_inj {a b : Int} (h : intStr a = intStr b) : a = b := by
  have ha := jsToNumber_intStr a
  have hb := jsToNumber_intStr b
  rw [h, hb] at ha
  exact (Option.some_inj.mp ha).symm

theorem updFirst_eq_none {pred : α → Bool} {f : α → α} :
    ∀ {l : List α}, (∀ x ∈ l, pred x = false) → updFirst pred f l = none := by
  intro l
  induction l with
  | nil => intro _; rfl
  | cons x xs ih =>
    intro h
    have hx : pred x = false := h x (by simp)
    simp [updFirst, hx, ih (fun y hy => h y (by simp [hy]))]

theorem updFirst_eq_some {pred : α → Bool} {f : α → α} :
    ∀ {l : List α} {a : α} {l' : List α},
      updFirst pred f l = some (a, l') →
      ∃ x ∈ l, pred x = true ∧ a = f x := by
  intro l
  induction l with
  | nil => intro a l' h; simp [updFirst] at h
  | cons x xs ih =>
    intro a l' h
    by_cases hx : pred x = true
    · refine ⟨x, by simp, hx, ?_⟩
      simp [updFirst, hx] at h
      exact h.1.symm
    · simp [updFirst, hx] at h
      match hrec : updFirst pred f xs with
      | none => rw [hrec] at h; simp at h
      | some (b, ys) =>
        rw [hrec] at h
        simp at h
        obtain ⟨y, hy, hpy, hay⟩ := ih hrec
        exact ⟨y, by simp [hy], hpy, by rw [← h.1, hay]⟩

theorem mem_jsInsert {cmp : α → α → Int} {x a : α} :
    ∀ {l : List α}, a ∈ jsInsert cmp x l ↔ a = x ∨ a ∈ l := by
  intro l
  induction l with
  | nil => simp [jsInsert]
  | cons y ys ih =>
    simp only [jsInsert]
    split
    · simp
    · simp [ih]
      tauto

theorem jsInsert_perm (cmp : α → α → Int) (x : α) :
    ∀ l : List α, (jsInsert cmp x l).Perm (x :: l) := by
  intro l
  induction l with
  | nil => simp [jsInsert]
  | cons y ys ih =>
    simp only [jsInsert]
    split
    · exact List.Perm.refl _
    · exact (ih.cons y).trans (List.Perm.swap x y ys)

theorem jsSort_foldl_perm (cmp : α → α → Int) :
    ∀ (l acc : List α),
      (l.foldl (fun a x => jsInsert cmp x a) acc).Perm (acc ++ l) := by
  intro l
  induction l with
  | nil => intro acc; simp
  | cons x xs ih =>
    intro acc
    have h1 := ih (jsInsert cmp x acc)
    have h2 : (jsInsert cmp x acc ++ xs).Perm ((x :: acc) ++ xs) :=
      (jsInsert_perm cmp x acc).append_right xs
    have h3 : ((x :: acc) ++ xs).Perm (acc ++ x :: xs) := by
      simp only [List.cons_append]
      exact List.perm_middle.symm
    simpa using h1.trans (h2.trans h3)

theorem jsSort_perm (cmp : α → α → Int) (l : List α) :
    (jsSort cmp l).Perm l := by
  simpa [jsSort] using jsSort_foldl_perm cmp l []

theorem jsInsert_pairwise (cmp : α → α → Int) (S : List α)
    (htot : ∀ a ∈ S, ∀ b ∈ S, cmp a b ≤ 0 ∨ cmp b a ≤ 0)
    (htr : ∀ a ∈ S, ∀ b ∈ S, ∀ c ∈ S,
      cmp a b ≤ 0 → cmp b c ≤ 0 → cmp a c ≤ 0)
    (x : α) (hx : x ∈ S) :
    ∀ l : List α, (∀ y ∈ l, y ∈ S) →
      l.Pairwise (fun a b => cmp a b ≤ 0) →
      (jsInsert cmp x l).Pairwise (fun a b => cmp a b ≤ 0) := by
  intro l
  induction l with
  | nil => intro _ _; simp [jsInsert]
  | cons y ys ih =>
    intro hsub hp
    have hyS : y ∈ S := hsub y (by simp)
    have hysS : ∀ z ∈ ys, z ∈ S := fun z hz => hsub z (by simp [hz])
    rw [List.pairwise_cons] at hp
    obtain ⟨hy, hys⟩ := hp
    simp only [jsInsert]
    split
    · rename_i hlt
      have hxy : cmp x y ≤ 0 := by
        rcases htot x hx y hyS with h | h
        · exact h
        · omega
      refine List.Pairwise.cons ?_ (List.Pairwise.cons hy hys)
      intro z hz
      simp at hz
      rcases hz with rfl | hz
      · exact hxy
      · exact htr x hx y hyS z (hysS z hz) hxy (hy z hz)
    · rename_i hge
      refine List.Pairwise.cons ?_ (ih hysS hys)
      intro z hz
      rw [mem_jsInsert] at hz
      rcases hz with rfl | hz
      · omega
      · exact hy z hz

theorem jsSort_pairwise (cmp : α → α → Int) (l : List α)
    (htot : ∀ a ∈ l, ∀ b ∈ l, cmp a b ≤ 0 ∨ cmp b a ≤ 0)
    (htr : ∀ a ∈ l, ∀ b ∈ l, ∀ c ∈ l,
      cmp a b ≤ 0 → cmp b c ≤ 0 → cmp a c ≤ 0) :
    (jsSort cmp l).Pairwise (fun a b => cmp a b ≤ 0) := by
  have main : ∀ (rest acc : List α), (∀ y ∈ rest, y ∈ l) →
      (∀ y ∈ acc, y ∈ l) → acc.Pairwise (fun a b => cmp a b ≤ 0) →
      (rest.foldl (fun a x => jsInsert cmp x a) acc).Pairwise
        (fun a b => cmp a b ≤ 0) := by
    intro rest
    induction rest with
    | nil => intro acc _ _ hp; simpa using hp
    | cons x xs ih =>
      intro acc hrest hacc hp
      simp only [List.foldl_cons]
      refine ih (jsInsert cmp x acc) (fun y hy => hrest y (by simp [hy]))
        ?_ ?_
      · intro y hy
        rw [mem_jsInsert] at hy
        rcases hy with rfl | hy
        · exact hrest y (by simp)
        · exact hacc y hy
      · exact jsInsert_pairwise cmp l htot htr x (hrest x (by simp)) acc
          hacc hp
  exact main l [] (fun y hy => hy) (by simp) (by simp)

/-- Sample client used in concrete witnesses. -/
def cW : Client := ⟨.num 1, "Acme", "a@x.com", "Acme Co", none, none⟩

/-- Sample project used in concrete witnesses. -/
def pW : Project :=
  ⟨.num 2, "Site", .num 1, "1970-01-01", "1970-01-10", 100, "d", "To Do", 10⟩

/-- Sample task used in concrete witnesses. -/
def tW : Task := ⟨.num 3, "Build", .num 2, "To Do", "1970-01-05", "d"⟩

/-- Sample store used in concrete witnesses. -/
def stW : AppData := ⟨[cW], [pW], [tW], 4, 4, 4⟩

/-- C6: for each resource, DELETE responds 204 exactly when some stored
entity's id is strictly equal to the numeric route id, and 404 exactly
otherwise; in particular a 204 is returned only for an id present at the
time of the request. -/
theorem delete_status_204_iff_present (st : AppData) (n : Int) :
    (((deleteClientCore st (some n)).status = 204 ↔
        ∃ c ∈ st.clients, strictEqNum c.id (some n) = true)
      ∧ ((deleteClientCore st (some n)).status = 404 ↔
        ¬ ∃ c ∈ st.clients, strictEqNum c.id (some n) = true))
    ∧ (((deleteProjectCore st (some n)).status = 204 ↔
        ∃ p ∈ st.projects, strictEqNum p.id (some n) = true)
      ∧ ((deleteProjectCore st (some n)).status = 404 ↔
        ¬ ∃ p ∈ st.projects, strictEqNum p.id (some n) = true))
    ∧ (((deleteTaskCore st (some n)).status = 204 ↔
        ∃ t ∈ st.tasks, strictEqNum t.id (some n) = true)
      ∧ ((deleteTaskCore st (some n)).status = 404 ↔
        ¬ ∃ t ∈ st.tasks, strictEqNum t.id (some n) = true)) := by
  refine ⟨⟨?_, ?_⟩, ⟨?_, ?_⟩, ⟨?_, ?_⟩⟩ <;>
    · simp only [deleteClientCore, deleteProjectCore, deleteTaskCore]
      split <;> simp_all [List.any_eq_true]

/-- C5: updating a nonexistent id returns 404 with the resource name and
the id in the error body, and leaves the store untouched, for each of the
three resources. -/
theorem put_missing_404_unchanged (st : AppData) (n : Int)
    (bc : ClientPutBody) (bp : ProjectPutBody) (bt : TaskPutBody) :
    ((∀ c ∈ st.clients, strictEqNum c.id (some n) = false) →
      putClientCore st (some n) bc =
        ⟨404, some ("Client with ID " ++ intStr n ++ " not found."),
         none, st⟩)
    ∧ ((∀ p ∈ st.projects, strictEqNum p.id (some n) = false) →
      putProjectCore st (some n) bp =
        ⟨404, some ("Project with ID " ++ intStr n ++ " not found."),
         none, st⟩)
    ∧ ((∀ t ∈ st.tasks, strictEqNum t.id (some n) = false) →
      putTaskCore st (some n) bt =
        ⟨404, some ("Task with ID " ++ intStr n ++ " not found."),
         none, st⟩) := by
  refine ⟨fun h => ?_, fun h => ?_, fun h => ?_⟩ <;>
    · first
        | rw [putClientCore, updFirst_eq_none h]
        | rw [putProjectCore, updFirst_eq_none h]
        | rw [putTaskCore, updFirst_eq_none h]
      simp [send404msg]

/-- C5 witness: a concrete store and an absent id. -/
theorem put_missing_404_unchanged_witness :
    (∀ c ∈ stW.clients, strictEqNum c.id (some 9) = false) ∧
    putClientCore stW (some 9) ⟨none, none, none, none, none, none⟩ =
      ⟨404, some ("Client with ID " ++ intStr 9 ++ " not found."),
       none, stW⟩ :=
  ⟨by decide,
   (put_missing_404_unchanged stW 9 ⟨none, none, none, none, none, none⟩
     ⟨none, none, none, none, none, none, none, none, none⟩
     ⟨none, none, none, none, none, none⟩).1 (by decide)⟩

/-- C9: whenever a PUT succeeds, the entity it stores keeps the id of the
entity it replaced, for each of the three resources (the body's id field
is destructured away before the merge). -/
theorem put_preserves_id (st : AppData) (n : Int)
    (bc : ClientPutBody) (bp : ProjectPutBody) (bt : TaskPutBody) :
    (∀ c', (putClientCore st (some n) bc).entity = some c' →
      ∃ c ∈ st.clients, strictEqNum c.id (some n) = true ∧ c'.id = c.id)
    ∧ (∀ p', (putProjectCore st (some n) bp).entity = some p' →
      ∃ p ∈ st.projects, strictEqNum p.id (some n) = true ∧ p'.id = p.id)
    ∧ (∀ t', (putTaskCore st (some n) bt).entity = some t' →
      ∃ t ∈ st.tasks, strictEqNum t.id (some n) = true ∧ t'.id = t.id) := by
  refine ⟨fun c' h => ?_, fun p' h => ?_, fun t' h => ?_⟩
  · rw [putClientCore] at h
    cases hu : updFirst (fun c => strictEqNum c.id (some n))
        (fun c => mergeClient c bc) st.clients with
    | none => rw [hu] at h; simp at h
    | some r =>
      obtain ⟨a, ys⟩ := r
      rw [hu] at h
      obtain ⟨x, hx, hpx, hax⟩ := updFirst_eq_some hu
      simp at h
      exact ⟨x, hx, hpx, by rw [← h, hax]; rfl⟩
  · rw [putProjectCore] at h
    cases hu : updFirst (fun p => strictEqNum p.id (some n))
        (fun p => mergeProject p bp) st.projects with
    | none => rw [hu] at h; simp at h
    | some r =>
      obtain ⟨a, ys⟩ := r
      rw [hu] at h
      obtain ⟨x, hx, hpx, hax⟩ := updFirst_eq_some hu
      simp at h
      exact ⟨x, hx, hpx, by rw [← h, hax]; rfl⟩
  · rw [putTaskCore] at h
    cases hu : updFirst (fun t => strictEqNum t.id (some n))
        (fun t => mergeTask t bt) st.tasks with
    | none => rw [hu] at h; simp at h
    | some r =>
      obtain ⟨a, ys⟩ := r
      rw [hu] at h
      obtain ⟨x, hx, hpx, hax⟩ := updFirst_eq_some hu
      simp at h
      exact ⟨x, hx, hpx, by rw [← h, hax]; rfl⟩

/-- C2: deleting a present project removes exactly the project(s) whose id
strictly equals the requested numeric id together with every task whose
`projectId` matches it (loose equality, so both the numeric and the
string-numeral form match), and leaves the clients collection and every
other project untouched. -/
theorem delete_project_cascade (st : AppData) (n : Int)
    (hex : ∃ p ∈ st.projects, strictEqNum p.id (some n) = true) :
    (deleteProjectCore st (some n)).status = 204
    ∧ (deleteProjectCore st (some n)).state.clients = st.clients
    ∧ (deleteProjectCore st (some n)).state.projects =
        st.projects.filter (fun p => !(strictEqNum p.id (some n)))
    ∧ (∀ p ∈ st.projects,
        (p ∈ (deleteProjectCore st (some n)).state.projects ↔
          strictEqNum p.id (some n) = false))
    ∧ (∀ t ∈ st.tasks,
        (t ∈ (deleteProjectCore st (some n)).state.tasks ↔
          looseEqNum t.projectId (some n) = false)) := by
  have hany : (st.projects.any fun p => strictEqNum p.id (some n)) = true :=
    List.any_eq_true.mpr (by simpa using hex)
  simp only [deleteProjectCore, if_pos hany]
  refine ⟨trivial, trivial, trivial, fun p hp => ?_, fun t ht => ?_⟩
  · simp [List.mem_filter, hp]
  · simp [List.mem_filter, ht]

/-- C2 witness: deleting the sample project removes it and its task and
keeps the client. -/
theorem delete_project_cascade_witness :
    (∃ p ∈ stW.projects, strictEqNum p.id (some 2) = true) ∧
    ((deleteProjectCore stW (some 2)).status = 204
    ∧ (deleteProjectCore stW (some 2)).state.clients = stW.clients
    ∧ (deleteProjectCore stW (some 2)).state.projects =
        stW.projects.filter (fun p => !(strictEqNum p.id (some 2)))
    ∧ (∀ p ∈ stW.projects,
        (p ∈ (deleteProjectCore stW (some 2)).state.projects ↔
          strictEqNum p.id (some 2) = false))
    ∧ (∀ t ∈ stW.tasks,
        (t ∈ (deleteProjectCore stW (some 2)).state.tasks ↔
          looseEqNum t.projectId (some 2) = false))) :=
  ⟨by decide, delete_project_cascade stW 2 (by decide)⟩

/-- C9 witness: a concrete successful client update preserves the stored
id even though the body carries a different id. -/
theorem put_preserves_id_witness :
    (putClientCore stW (some 1)
        ⟨some (.num 99), some "New", none, none, none, none⟩).entity =
      some (mergeClient cW ⟨some (.num 99), some "New", none, none, none,
        none⟩) ∧
    ∃ c ∈ stW.clients, strictEqNum c.id (some 1) = true ∧
      (mergeClient cW ⟨some (.num 99), some "New", none, none, none,
        none⟩).id = c.id :=
  ⟨by decide,
   (put_preserves_id stW 1
     ⟨some (.num 99), some "New", none, none, none, none⟩
     ⟨none, none, none, none, none, none, none, none, none⟩
     ⟨none, none, none, none, none, none⟩).1
     (mergeClient cW ⟨some (.num 99), some "New", none, none, none, none⟩)
     (by decide)⟩

theorem memberStr_map_iff {α : Type} (g : α → String) (l : List α)
    (v : JVal) :
    memberStr (l.map g) v = true ↔ ∃ x ∈ l, v = JVal.str (g x) := by
  cases v with
  | num m => simp [memberStr]
  | str s =>
    simp only [memberStr, JVal.str.injEq]
    rw [show ((l.map g).contains s = true) = (s ∈ l.map g) by simp]
    simp [List.mem_map, eq_comm]

/-- C1 (amended): deleting a present client returns 204 and removes every
client whose id strictly equals the numeric route id and every project
whose `clientId` loosely matches it; a task is removed exactly when its
`projectId` is the *string* image `String(p.id)` of a removed project's
id, so a task whose `projectId` stores the number itself survives even
though its project was removed. -/
theorem delete_client_cascade_amended (st : AppData) (n : Int)
    (hex : ∃ c ∈ st.clients, strictEqNum c.id (some n) = true) :
    (deleteClientCore st (some n)).status = 204
    ∧ (∀ c ∈ st.clients,
        (c ∈ (deleteClientCore st (some n)).state.clients ↔
          strictEqNum c.id (some n) = false))
    ∧ (∀ p ∈ st.projects,
        (p ∈ (deleteClientCore st (some n)).state.projects ↔
          looseEqNum p.clientId (some n) = false))
    ∧ (∀ t ∈ st.tasks,
        (t ∈ (deleteClientCore st (some n)).state.tasks ↔
          ¬ ∃ p ∈ st.projects, looseEqNum p.clientId (some n) = true ∧
            t.projectId = JVal.str (jsValToString p.id))) := by
  have hany : (st.clients.any fun c => strictEqNum c.id (some n)) = true :=
    List.any_eq_true.mpr (by simpa using hex)
  simp only [deleteClientCore, if_pos hany]
  refine ⟨trivial, fun c hc => ?_, fun p hp => ?_, fun t ht => ?_⟩
  · simp [List.mem_filter, hc]
  · simp [List.mem_filter, hp]
  · rw [List.mem_filter]
    simp only [ht, true_and, Bool.not_eq_true']
    rw [← Bool.not_eq_true, memberStr_map_iff]
    simp [List.mem_filter]

/-- C1 counterexample: in a store whose task stores its `projectId` as the
number `2`, deleting client `1` removes project `2` but keeps the task,
which then still references the removed project — the claimed cascade
fails. -/
theorem delete_client_cascade_counterexample :
    ¬ (∀ t ∈ (deleteClientCore stW (some 1)).state.tasks,
        ¬ ∃ p ∈ stW.projects, looseEqNum p.clientId (some 1) = true ∧
          t.projectId = p.id) := by decide

/-- C1 witness: the amended characterization at the sample store. -/
theorem delete_client_cascade_amended_witness :
    (∃ c ∈ stW.clients, strictEqNum c.id (some 1) = true) ∧
    ((deleteClientCore stW (some 1)).status = 204
    ∧ (∀ c ∈ stW.clients,
        (c ∈ (deleteClientCore stW (some 1)).state.clients ↔
          strictEqNum c.id (some 1) = false))
    ∧ (∀ p ∈ stW.projects,
        (p ∈ (deleteClientCore stW (some 1)).state.projects ↔
          looseEqNum p.clientId (some 1) = false))
    ∧ (∀ t ∈ stW.tasks,
        (t ∈ (deleteClientCore stW (some 1)).state.tasks ↔
          ¬ ∃ p ∈ stW.projects, looseEqNum p.clientId (some 1) = true ∧
            t.projectId = JVal.str (jsValToString p.id)))) :=
  ⟨by decide, delete_client_cascade_amended stW 1 (by decide)⟩

/-- Empty store with fresh counters, as seeded by `defaultData`. -/
def st0 : AppData := ⟨[], [], [], 1, 1, 1⟩

/-- A create body that smuggles in its own id. -/
def bid999 : ClientPostBody := ⟨some (.num 999), "X", "x@x", "X Co", none, none⟩

/-- A project create body with its own id. -/
def pbid777 : ProjectPostBody :=
  ⟨some (.num 777), "P", .num 1, "1970-01-01", "1970-01-10", some (.num 5),
   some (.num 10), "d", "To Do"⟩

/-- A task create body with its own id. -/
def tbid555 : TaskPostBody :=
  ⟨some (.num 555), "T", .num 2, "To Do", "1970-01-05", "d"⟩

/-- C3: the create handlers spread `...req.body` after the generated id,
so a body-supplied id overrides the server-assigned one for every
resource: on the seeded store the stored ids are the requester's 999, 777
and 555, not the counters' 1 (which are nevertheless incremented). -/
theorem post_body_id_overrides :
    (postClientCore st0 bid999).1.id = JVal.num 999
    ∧ bid999.id = some (JVal.num 999)
    ∧ st0.nextClient = 1
    ∧ (postClientCore st0 bid999).2.nextClient = 2
    ∧ (postClientCore st0 bid999).2.clients = [(postClientCore st0 bid999).1]
    ∧ (postProjectCore st0 pbid777).1.id = JVal.num 777
    ∧ (postTaskCore st0 tbid555).1.id = JVal.num 555 := by decide

/-- A project create body with a negative budget and an out-of-range
progress value. -/
def pbNeg : ProjectPostBody :=
  ⟨none, "P", .num 1, "1970-01-01", "1970-01-10", some (.num (-5)),
   some (.num 150), "d", "To Do"⟩

/-- C8 counterexample: the project create handler stores `budget = -5` and
`progress = 150` verbatim — no non-negativity or 0–100 clamping exists. -/
theorem project_range_counterexample :
    ¬ (0 ≤ (postProjectCore st0 pbNeg).1.budget ∧
       0 ≤ (postProjectCore st0 pbNeg).1.progress ∧
       (postProjectCore st0 pbNeg).1.progress ≤ 100) := by decide

/-- C8 (amended): after a project create, and after every successful
project update, the stored `budget` and `progress` equal
`Number(bodyField) || 0` — always a number, with an absent or non-numeric
field becoming 0, but with no range restriction whatsoever. -/
theorem project_budget_progress_amended (st : AppData)
    (b : ProjectPostBody) (b' : ProjectPutBody) (n : Int) :
    ((postProjectCore st b).1.budget = jsNumOr0 b.budget
     ∧ (postProjectCore st b).1.progress = jsNumOr0 b.progress)
    ∧ (∀ p', (putProjectCore st (some n) b').entity = some p' →
        p'.budget = jsNumOr0 b'.budget ∧
        p'.progress = jsNumOr0 b'.progress) := by
  refine ⟨⟨rfl, rfl⟩, fun p' h => ?_⟩
  rw [putProjectCore] at h
  cases hu : updFirst (fun p => strictEqNum p.id (some n))
      (fun p => mergeProject p b') st.projects with
  | none => rw [hu] at h; simp at h
  | some r =>
    obtain ⟨a, ys⟩ := r
    rw [hu] at h
    obtain ⟨x, _, _, hax⟩ := updFirst_eq_some hu
    simp at h
    rw [← h, hax]
    exact ⟨rfl, rfl⟩

/-- A project update body with a non-numeric budget and no progress
field. -/
def b8 : ProjectPutBody :=
  ⟨none, none, none, none, none, some (.str "abc"), none, none, none⟩

/-- C8 witness: a concrete successful update; the stored budget and
progress both collapse to 0 (`Number("abc")` is `NaN`, `progress` is
absent). -/
theorem project_budget_progress_amended_witness :
    (putProjectCore stW (some 2) b8).entity = some (mergeProject pW b8) ∧
    ((mergeProject pW b8).budget = jsNumOr0 b8.budget ∧
     (mergeProject pW b8).progress = jsNumOr0 b8.progress) :=
  ⟨by decide,
   (project_budget_progress_amended stW pbNeg b8 2).2 (mergeProject pW b8)
     (by decide)⟩

theorem localeCmp_nonpos {a b : String} : localeCmp a b ≤ 0 ↔ a ≤ b := by
  unfold localeCmp
  split_ifs with h1 h2
  · simp [le_of_lt h1]
  · simp [not_le.mpr h2]
  · simp [le_antisymm (not_lt.mp h2) (not_lt.mp h1)]

/-- Relation asserted by the spec for a date-sorted listing: ascending on
valid dates, with every invalid (unparseable) date placed after all valid
ones. -/
def invalidLastOk : Option Int → Option Int → Bool
  | some x, some y => decide (x ≤ y)
  | some _, none => true
  | none, none => true
  | none, some _ => false

/-- Projects with one unparseable deadline, stored in the order
invalid, late, early. -/
def pBadB : Project := ⟨.num 2, "B", .num 1, "", "nope", 0, "", "To Do", 0⟩

/-- Project with the later valid deadline. -/
def pBadA : Project :=
  ⟨.num 1, "A", .num 1, "", "1970-01-05", 0, "", "To Do", 0⟩

/-- Project with the earlier valid deadline. -/
def pBadC : Project :=
  ⟨.num 3, "C", .num 1, "", "1970-01-01", 0, "", "To Do", 0⟩

/-- Store exhibiting the invalid-date sorting failure. -/
def stBad : AppData := ⟨[], [pBadB, pBadA, pBadC], [], 1, 4, 1⟩

/-- C4 counterexample: sorting `[invalid, 05, 01]` by
`new Date(a) - new Date(b)` leaves the invalid-deadline project *first*
(its comparator value is `NaN`, treated as 0, so the stable sort never
moves it), refuting "invalid dates are placed after all valid dates" —
the output is not even ascending around it. -/
theorem get_projects_invalid_last_counterexample :
    ¬ ((getProjects stBad).Pairwise (fun a b =>
        invalidLastOk (jsParseDate a.deadline) (jsParseDate b.deadline)
          = true)) := by
  intro h
  have hout : getProjects stBad = [pBadB, pBadC, pBadA] := by decide
  rw [hout, List.pairwise_cons] at h
  have := h.1 pBadC (by simp)
  revert this
  decide

/-- C4 (amended): every listing is a permutation of its collection;
clients are sorted by name, and when every stored date is parseable the
project and task listings are sorted ascending by deadline and due date.
With an unparseable date present the comparator returns `NaN` (treated as
0) and no placement of the invalid entries is guaranteed. -/
theorem get_listings_sorted_amended (st : AppData) :
    (getClients st).Perm st.clients
    ∧ (getClients st).Pairwise (fun a b => localeCmp a.name b.name ≤ 0)
    ∧ (getProjects st).Perm st.projects
    ∧ (getTasks st).Perm st.tasks
    ∧ ((∀ p ∈ st.projects, (jsParseDate p.deadline).isSome = true) →
        (getProjects st).Pairwise (fun a b =>
          dateCmp (jsParseDate a.deadline) (jsParseDate b.deadline) ≤ 0))
    ∧ ((∀ t ∈ st.tasks, (jsParseDate t.dueDate).isSome = true) →
        (getTasks st).Pairwise (fun a b =>
          dateCmp (jsParseDate a.dueDate) (jsParseDate b.dueDate) ≤ 0)) := by
  refine ⟨jsSort_perm _ _, ?_, jsSort_perm _ _, jsSort_perm _ _,
    fun hp => ?_, fun ht => ?_⟩
  · apply jsSort_pairwise
    · intro a _ b _
      rw [localeCmp_nonpos, localeCmp_nonpos]
      exact le_total a.name b.name
    · intro a _ b _ c _ hab hbc
      rw [localeCmp_nonpos] at hab hbc ⊢
      exact le_trans hab hbc
  · apply jsSort_pairwise
    · intro a ha b hb
      obtain ⟨da, hda⟩ := Option.isSome_iff_exists.mp (hp a ha)
      obtain ⟨db, hdb⟩ := Option.isSome_iff_exists.mp (hp b hb)
      rw [hda, hdb]
      simp [dateCmp]
      omega
    · intro a ha b hb c hc
      obtain ⟨da, hda⟩ := Option.isSome_iff_exists.mp (hp a ha)
      obtain ⟨db, hdb⟩ := Option.isSome_iff_exists.mp (hp b hb)
      obtain ⟨dc, hdc⟩ := Option.isSome_iff_exists.mp (hp c hc)
      rw [hda, hdb, hdc]
      simp [dateCmp]
      omega
  · apply jsSort_pairwise
    · intro a ha b hb
      obtain ⟨da, hda⟩ := Option.isSome_iff_exists.mp (ht a ha)
      obtain ⟨db, hdb⟩ := Option.isSome_iff_exists.mp (ht b hb)
      rw [hda, hdb]
      simp [dateCmp]
      omega
    · intro a ha b hb c hc
      obtain ⟨da, hda⟩ := Option.isSome_iff_exists.mp (ht a ha)
      obtain ⟨db, hdb⟩ := Option.isSome_iff_exists.mp (ht b hb)
      obtain ⟨dc, hdc⟩ := Option.isSome_iff_exists.mp (ht c hc)
      rw [hda, hdb, hdc]
      simp [dateCmp]
      omega

/-- C4 witness: the amended sortedness at the sample store, including the
date-sorted conclusions with their all-dates-valid hypotheses discharged
concretely. -/
theorem get_listings_sorted_amended_witness :
    ((∀ p ∈ stW.projects, (jsParseDate p.deadline).isSome = true)
      ∧ (∀ t ∈ stW.tasks, (jsParseDate t.dueDate).isSome = true)) ∧
    ((getClients stW).Perm stW.clients
    ∧ (getClients stW).Pairwise (fun a b => localeCmp a.name b.name ≤ 0)
    ∧ (getProjects stW).Perm stW.projects
    ∧ (getTasks stW).Perm stW.tasks
    ∧ (getProjects stW).Pairwise (fun a b =>
        dateCmp (jsParseDate a.deadline) (jsParseDate b.deadline) ≤ 0)
    ∧ (getTasks stW).Pairwise (fun a b =>
        dateCmp (jsParseDate a.dueDate) (jsParseDate b.dueDate) ≤ 0)) :=
  ⟨⟨by decide, by decide⟩,
   (get_listings_sorted_amended stW).1,
   (get_listings_sorted_amended stW).2.1,
   (get_listings_sorted_amended stW).2.2.1,
   (get_listings_sorted_amended stW).2.2.2.1,
   (get_listings_sorted_amended stW).2.2.2.2.1 (by decide),
   (get_listings_sorted_amended stW).2.2.2.2.2 (by decide)⟩

/-- C7 (amended): every entry of the dashboard's upcoming-deadlines view
has a date inside the inclusive 14-day window, and conversely every
project/task inside the window appears — provided at most 5 items qualify
in total, since the view is truncated to its first 5 entries. -/
theorem upcoming_deadlines_amended (now : Int) (ps : List Project)
    (ts : List Task) :
    (∀ x ∈ upcomingDeadlines now ps ts, inWindow now (ditemDate x) = true)
    ∧ ((ps.filter (fun p => inWindow now p.deadline)).length +
        (ts.filter (fun t => inWindow now t.dueDate)).length ≤ 5 →
       (∀ p ∈ ps, inWindow now p.deadline = true →
          DItem.proj p ∈ upcomingDeadlines now ps ts)
       ∧ (∀ t ∈ ts, inWindow now t.dueDate = true →
          DItem.task t ∈ upcomingDeadlines now ps ts)) := by
  constructor
  · intro x hx
    rw [upcomingDeadlines] at hx
    have hx2 := List.mem_of_mem_take hx
    rw [(jsSort_perm _ _).mem_iff, List.mem_append] at hx2
    rcases hx2 with hx2 | hx2
    · obtain ⟨p, hp, rfl⟩ := List.mem_map.mp hx2
      exact (List.mem_filter.mp hp).2
    · obtain ⟨t, ht, rfl⟩ := List.mem_map.mp hx2
      exact (List.mem_filter.mp ht).2
  · intro hlen
    have hlen2 :
        (jsSort (fun a b => dateCmp (jsParseDate (ditemDate a))
            (jsParseDate (ditemDate b)))
          ((ps.filter (fun p => inWindow now p.deadline)).map DItem.proj ++
           (ts.filter (fun t => inWindow now t.dueDate)).map
             DItem.task)).length ≤ 5 := by
      rw [(jsSort_perm _ _).length_eq]
      simpa using hlen
    have htake := List.take_of_length_le hlen2
    constructor
    · intro p hp hw
      rw [upcomingDeadlines, htake, (jsSort_perm _ _).mem_iff,
        List.mem_append]
      left
      exact List.mem_map_of_mem DItem.proj (List.mem_filter.mpr ⟨hp, hw⟩)
    · intro t ht hw
      rw [upcomingDeadlines, htake, (jsSort_perm _ _).mem_iff,
        List.mem_append]
      right
      exact List.mem_map_of_mem DItem.task (List.mem_filter.mpr ⟨ht, hw⟩)

/-- Six projects whose deadlines all lie in the first 14 days of 1970. -/
def upPs : List Project :=
  [⟨.num 1, "P1", .num 1, "", "1970-01-01", 0, "", "To Do", 0⟩,
   ⟨.num 2, "P2", .num 1, "", "1970-01-02", 0, "", "To Do", 0⟩,
   ⟨.num 3, "P3", .num 1, "", "1970-01-03", 0, "", "To Do", 0⟩,
   ⟨.num 4, "P4", .num 1, "", "1970-01-04", 0, "", "To Do", 0⟩,
   ⟨.num 5, "P5", .num 1, "", "1970-01-05", 0, "", "To Do", 0⟩,
   ⟨.num 6, "P6", .num 1, "", "1970-01-06", 0, "", "To Do", 0⟩]

/-- The sixth project, with the latest of the six deadlines. -/
def upP6 : Project := ⟨.num 6, "P6", .num 1, "", "1970-01-06", 0, "", "To Do", 0⟩

/-- C7 counterexample: with six projects inside the window, the project
with the latest deadline is dropped by `.slice(0, 5)` even though its
deadline falls within the next 14 days — the claimed "if and only if"
fails. -/
theorem upcoming_deadlines_counterexample :
    inWindow 0 upP6.deadline = true ∧
    upP6 ∈ upPs ∧
    DItem.proj upP6 ∉ upcomingDeadlines 0 upPs [] := by decide

/-- C7 witness: on the sample store (one project, one task, both in
window, so 2 ≤ 5 qualify) the amended view contains exactly the qualifying
items. -/
theorem upcoming_deadlines_amended_witness :
    ((stW.projects.filter (fun p => inWindow 0 p.deadline)).length +
      (stW.tasks.filter (fun t => inWindow 0 t.dueDate)).length ≤ 5) ∧
    inWindow 0 pW.deadline = true ∧
    DItem.proj pW ∈ upcomingDeadlines 0 stW.projects stW.tasks :=
  ⟨by decide, by decide,
   ((upcoming_deadlines_amended 0 stW.projects stW.tasks).2
     (by decide)).1 pW (by decide) (by decide)⟩

theorem containsJV_eq_memberStr (F : List Project)
    (hstr : ∀ p ∈ F, ∃ a, p.id = JVal.str a) (v : JVal) :
    containsJV (F.map (fun p => p.id)) v =
      memberStr (F.map (fun p => jsValToString p.id)) v := by
  cases v with
  | num m =>
    have hall : ∀ w ∈ F.map (fun p => p.id),
        ¬ jsStrictEq w (JVal.num m) = true := by
      intro w hw
      obtain ⟨p, hp, rfl⟩ := List.mem_map.mp hw
      obtain ⟨a, ha⟩ := hstr p hp
      rw [ha]
      simp [jsStrictEq]
    simp only [containsJV, memberStr]
    exact List.any_eq_false.mpr hall
  | str s =>
    rw [Bool.eq_iff_iff]
    simp only [containsJV, List.any_eq_true, List.mem_map]
    rw [memberStr_map_iff]
    constructor
    · rintro ⟨w, ⟨p, hp, rfl⟩, hbeq⟩
      obtain ⟨a, ha⟩ := hstr p hp
      rw [ha] at hbeq
      simp [jsStrictEq] at hbeq
      exact ⟨p, hp, by rw [ha]; simp [jsValToString, hbeq]⟩
    · rintro ⟨p, hp, hval⟩
      obtain ⟨a, ha⟩ := hstr p hp
      rw [ha] at hval
      simp [jsValToString] at hval
      exact ⟨p.id, ⟨p, hp, rfl⟩, by rw [ha, hval]; simp [jsStrictEq]⟩

/-- Frontend collections whose project id and the task's `projectId` are
stored as numbers, as the MongoDB backend creates them. -/
def feCE : FeState := ⟨[cW], [pW], [tW]⟩

/-- C10 counterexample: on numerically-typed collections the frontend's
optimistic update removes the task of the deleted client's project
(strict `includes` on the numeric ids), while the server keeps it (its
string array `["2"]` does not contain the number 2) — the surviving
tasks differ. -/
theorem fe_delete_equiv_counterexample :
    ¬ ((feDeleteClient (JVal.num 1) feCE).projects =
        (deleteClientCore (ofFe feCE)
          (serverIdOf (JVal.num 1))).state.projects
      ∧ (feDeleteClient (JVal.num 1) feCE).tasks =
        (deleteClientCore (ofFe feCE)
          (serverIdOf (JVal.num 1))).state.tasks) := by decide

/-- C10 (amended): the optimistic update computes the same surviving
projects and tasks as the server cascade exactly in the regime the two
filters agree on: the deleted client id and all project `clientId`s
numeric (so strict and loose equality coincide and the URL round-trip
`Number(String(id))` is the identity), the deleted client present, and
every project id stored as a string (so `String(p.id)` is `p.id` itself
and the two `includes` checks coincide). -/
theorem fe_delete_equiv_amended (n0 : Int) (s : FeState)
    (hcid : ∀ p ∈ s.projects, ∃ b, p.clientId = JVal.num b)
    (hpid : ∀ p ∈ s.projects, ∃ a, p.id = JVal.str a)
    (hex : ∃ c ∈ s.clients, strictEqNum c.id (some n0) = true) :
    (feDeleteClient (JVal.num n0) s).projects =
      (deleteClientCore (ofFe s) (serverIdOf (JVal.num n0))).state.projects
    ∧ (feDeleteClient (JVal.num n0) s).tasks =
      (deleteClientCore (ofFe s) (serverIdOf (JVal.num n0))).state.tasks := by
  have hsid : serverIdOf (JVal.num n0) = some n0 := by
    simp [serverIdOf, jsValToString, jsToNumber_intStr]
  have hany :
      (s.clients.any fun c => strictEqNum c.id (some n0)) = true :=
    List.any_eq_true.mpr (by simpa using hex)
  rw [hsid]
  simp only [deleteClientCore, feDeleteClient, ofFe, hany, if_true]
  have hpred : ∀ p ∈ s.projects,
      (!(jsStrictEq p.clientId (JVal.num n0))) =
        (!(looseEqNum p.clientId (some n0))) := by
    intro p hp
    obtain ⟨b, hb⟩ := hcid p hp
    rw [hb]
    rfl
  have hfeq : s.projects.filter
        (fun p => jsStrictEq p.clientId (JVal.num n0)) =
      s.projects.filter (fun p => looseEqNum p.clientId (some n0)) :=
    List.filter_congr (fun p hp => by
      obtain ⟨b, hb⟩ := hcid p hp
      rw [hb]
      rfl)
  refine ⟨List.filter_congr hpred, ?_⟩
  rw [hfeq]
  apply List.filter_congr
  intro t _
  congr 1
  exact containsJV_eq_memberStr _
    (fun p hp => hpid p (List.mem_filter.mp hp).1) t.projectId

/-- Project stored with a string id, as typed in `types.ts`. -/
def pS : Project :=
  ⟨.str "2", "Site", .num 1, "1970-01-01", "1970-01-10", 100, "d", "To Do",
   10⟩

/-- Task referencing the string-id project. -/
def tS : Task := ⟨.num 3, "Build", .str "2", "To Do", "1970-01-05", "d"⟩

/-- Frontend collections in the regime where the two deletes agree. -/
def feW : FeState := ⟨[cW], [pS], [tS]⟩

/-- C10 witness: on the mixed-typed sample (numeric client ids, string
project ids) the optimistic update and the server cascade agree. -/
theorem fe_delete_equiv_amended_witness :
    ((∀ p ∈ feW.projects, ∃ b, p.clientId = JVal.num b)
     ∧ (∀ p ∈ feW.projects, ∃ a, p.id = JVal.str a)
     ∧ (∃ c ∈ feW.clients, strictEqNum c.id (some 1) = true)) ∧
    ((feDeleteClient (JVal.num 1) feW).projects =
      (deleteClientCore (ofFe feW) (serverIdOf (JVal.num 1))).state.projects
    ∧ (feDeleteClient (JVal.num 1) feW).tasks =
      (deleteClientCore (ofFe feW)
        (serverIdOf (JVal.num 1))).state.tasks) :=
  ⟨⟨fun p hp => by
      simp [feW] at hp
      rw [hp]
      exact ⟨1, rfl⟩,
    fun p hp => by
      simp [feW] at hp
      rw [hp]
      exact ⟨"2", rfl⟩,
    by decide⟩,
   fe_delete_equiv_amended 1 feW
     (fun p hp => by
       simp [feW] at hp
       rw [hp]
       exact ⟨1, rfl⟩)
     (fun p hp => by
       simp [feW] at hp
       rw [hp]
       exact ⟨"2", rfl⟩)
     (by decide)⟩

end ClientFlow
